import Mathlib

/-!
Verification development for the khachkar-mapping tool (`mapping.py`).

The script flattens JSON records, resolves free-text location strings to
coordinates through a cached, country-qualified fallback geocoder, and
renders one marker per geocoded record.  The definitions below are a
shallow embedding of the script: the external geocoding service is a
parameter `g : String → Option Geo`, Python floats are modelled as exact
rationals, the persisted CSV is a list of rows (`Option` distinguishes an
absent file), and the Python dict is an association list whose lookup
returns the most recently inserted binding for a key.
-/

namespace Khachkars

/-- Coordinates returned by the geocoder (`found.latitude`, `found.longitude`). -/
structure Geo where
  lat : ℚ
  lon : ℚ
deriving DecidableEq

/-- One row of `geocode_cache.csv`: columns `query, lat, lon`. -/
structure CacheRow where
  query : String
  lat : ℚ
  lon : ℚ
deriving DecidableEq

/-- One flattened khachkar record (section 1 of the script). -/
structure FlatRecord where
  place : String := ""
  site : String := ""
  imageurl : String := ""
  name : String := ""
  location : String := ""
  origin : String := ""
  sculptor : String := ""
  date : String := ""
  description : String := ""
  source : String := ""
deriving DecidableEq

/-- The fixed country preference list (`COUNTRIES` in the script). -/
def COUNTRIES : List String := ["Armenia", "Turkey", "Georgia", "Iran", "Azerbaijan"]

/-- Manual fixes for locations Nominatim cannot resolve (`MANUAL` in the script). -/
def MANUAL : List (String × Geo) :=
  [("Haghartzin (Dilijan)", ⟨40.8016, 44.8909⟩),
   ("Talin Kamsarakan (Talin)", ⟨40.3874, 43.8733⟩)]

/-- Does the scan position start a regex match of `\s*\([^)]*\)`?  After the
maximal whitespace run there must be a `'('` with a later `')'`. -/
def startsMatch (l : List Char) : Bool :=
  let l' := l.dropWhile (fun a => a.isWhitespace)
  if l'.head? = some '(' ∧ ')' ∈ l'.tail then true else false

/-- Character-wise engine of `re.sub(r"\s*\([^)]*\)", "", text)`.  In state
`true` we are inside a parenthetical that is guaranteed to close, and we
drop characters up to and including the closing `')'`.  In state `false`
a character is dropped exactly when it lies inside a match of the regex:
either it is part of the whitespace run preceding a `'('` that closes, or
it is that `'('` itself; otherwise it is kept verbatim, exactly as
`re.sub` copies text between non-overlapping leftmost matches. -/
def subPAux : Bool → List Char → List Char
  | _, [] => []
  | true, c :: cs => if c = ')' then subPAux false cs else subPAux true cs
  | false, c :: cs =>
    if startsMatch (c :: cs) then
      if c = '(' then subPAux true cs else subPAux false cs
    else c :: subPAux false cs

/-- Python's `str.strip()`: remove leading and trailing whitespace. -/
def pyStrip (l : List Char) : List Char :=
  ((l.dropWhile (fun a => a.isWhitespace)).reverse.dropWhile (fun a => a.isWhitespace)).reverse

/-- The script's `strip_parens`: `re.sub(r"\s*\([^)]*\)", "", text).strip()`. -/
def strip_parens (s : String) : String :=
  ⟨pyStrip (subPAux false s.data)⟩

/-- Lookup in the cache dict; the most recently inserted binding wins. -/
def dget (d : List (String × Geo)) (k : String) : Option Geo :=
  (d.find? (fun p => p.1 == k)).map (fun p => p.2)

/-- Build the dict from the loaded CSV rows (`{q: (la, lo) for ...}`);
later rows shadow earlier ones for a duplicated query, as in Python. -/
def buildDict (rows : List CacheRow) : List (String × Geo) :=
  rows.foldl (fun d r => (r.query, Geo.mk r.lat r.lon) :: d) []

/-- The script's `cache.update(MANUAL)`: manual entries overwrite. -/
def seedManual (d : List (String × Geo)) : List (String × Geo) :=
  MANUAL.foldl (fun d p => p :: d) d

/-- In-memory cache right after loading: persisted rows (empty when the
file is absent) updated with the manual overrides. -/
def initCache (file : Option (List CacheRow)) : List (String × Geo) :=
  seedManual (buildDict (file.getD []))

/-- Python's code-point comparison on strings, on the underlying characters. -/
def charListLe : List Char → List Char → Bool
  | [], _ => true
  | _ :: _, [] => false
  | a :: as, b :: bs => if a < b then true else if b < a then false else charListLe as bs

/-- The ordering used by Python's `sorted` on strings. -/
def pyLe (a b : String) : Prop := charListLe a.data b.data = true

instance : DecidableRel pyLe := fun _ _ => inferInstanceAs (Decidable (_ = true))

/-- The script's `sorted(set(df["location"]) - set(cache))`. -/
def pendingLocs (locs : List String) (d : List (String × Geo)) : List String :=
  List.insertionSort pyLe (locs.dedup.filter (fun l => (dget d l).isNone))

/-- The query string `f"{loc_clean}, {ctry}"`. -/
def countryQuery (clean ctry : String) : String := clean ++ ", " ++ ctry

/-- The inner `for ctry in COUNTRIES` loop: first non-empty result wins. -/
def tryCountries (g : String → Option Geo) (clean : String) : List String → Option Geo
  | [] => none
  | c :: cs =>
    match g (countryQuery clean c) with
    | some p => some p
    | none => tryCountries g clean cs

/-- Resolution of one raw location string: the country-qualified attempts,
then the bare cleaned fallback (`geocode(strip_parens(loc_raw))`). -/
def resolveLoc (g : String → Option Geo) (locRaw : String) : Option Geo :=
  match tryCountries g (strip_parens locRaw) COUNTRIES with
  | some p => some p
  | none => g (strip_parens locRaw)

/-- The country-qualified queries actually issued, in order: every attempt
up to and including the first successful one. -/
def countryAttempts (g : String → Option Geo) (clean : String) : List String → List String
  | [] => []
  | c :: cs =>
    if (g (countryQuery clean c)).isSome then [countryQuery clean c]
    else countryQuery clean c :: countryAttempts g clean cs

/-- All live queries issued while resolving one raw location string. -/
def queriesFor (g : String → Option Geo) (locRaw : String) : List String :=
  if (tryCountries g (strip_parens locRaw) COUNTRIES).isSome then
    countryAttempts g (strip_parens locRaw) COUNTRIES
  else
    countryAttempts g (strip_parens locRaw) COUNTRIES ++ [strip_parens locRaw]

/-- Accumulated effects of the `for loc_raw in sorted(...)` loop. -/
structure LoopOut where
  inserted : List (String × Geo)
  newRows : List CacheRow
  warnings : List String
  queries : List String
deriving DecidableEq

/-- The resolution loop over the pending locations, in order: a success
inserts into the dict and appends to `new_rows`; a failure prints one
warning naming the raw string. -/
def runLoop (g : String → Option Geo) : List String → LoopOut
  | [] => ⟨[], [], [], []⟩
  | loc :: rest =>
    let r := runLoop g rest
    match resolveLoc g loc with
    | some p =>
      ⟨(loc, p) :: r.inserted, CacheRow.mk loc p.lat p.lon :: r.newRows,
       r.warnings, queriesFor g loc ++ r.queries⟩
    | none =>
      ⟨r.inserted, r.newRows, loc :: r.warnings, queriesFor g loc ++ r.queries⟩

/-- Observable outcome of one run of the resolution pipeline. -/
structure RunOut where
  cache : List (String × Geo)
  newRows : List CacheRow
  warnings : List String
  queries : List String
  file : Option (List CacheRow)
  wrote : Bool
deriving DecidableEq

/-- One run of sections 2 of the script over the location column `locs`
and the persisted cache `file` (`none` when `geocode_cache.csv` is
absent).  The file is rewritten as old rows plus `new_rows` only when
`new_rows` is non-empty. -/
def run (g : String → Option Geo) (locs : List String) (file : Option (List CacheRow)) : RunOut :=
  let rows := file.getD []
  let d := initCache file
  let r := runLoop g (pendingLocs locs d)
  ⟨r.inserted ++ d, r.newRows, r.warnings, r.queries,
   if r.newRows.isEmpty then file else some (rows ++ r.newRows),
   !r.newRows.isEmpty⟩

/-- The final table after `df.dropna(subset=["lat", "lon"])`: each record
paired with its coordinates, records with an unresolved location dropped. -/
def geocoded (d : List (String × Geo)) (recs : List FlatRecord) : List (FlatRecord × Geo) :=
  recs.filterMap (fun r => (dget d r.location).map (fun p => (r, p)))

/-- One rendered marker. -/
structure Marker where
  lat : ℚ
  lon : ℚ
  tooltip : String
deriving DecidableEq

/-- The marker tooltip `f"{row['name'] or 'Khachkar'} – {row['location']}"`. -/
def tooltipOf (r : FlatRecord) : String :=
  (if r.name = "" then "Khachkar" else r.name) ++ " – " ++ r.location

/-- Section 3 of the script: one marker per geocoded row, except that a
row with an empty image URL is skipped (`if not img_full: continue`). -/
def markers (d : List (String × Geo)) (recs : List FlatRecord) : List Marker :=
  (geocoded d recs).filterMap (fun rp =>
    if rp.1.imageurl = "" then none
    else some (Marker.mk rp.2.lat rp.2.lon (tooltipOf rp.1)))

/-- The whole pipeline driven by a record table: the location column is
`df["location"]`. -/
def pipeline (g : String → Option Geo) (recs : List FlatRecord) (file : Option (List CacheRow)) :
    RunOut :=
  run g (recs.map (fun r => r.location)) file

/-! ### Concrete fixtures used to instantiate the theorems -/

/-- A geocoding service for which every query fails. -/
def gNone : String → Option Geo := fun _ => none

/-- A geocoding service that resolves only the Georgia-qualified query for
the spec's Akhaltsikhe scenario. -/
def gGeorgiaOnly : String → Option Geo :=
  fun q => if q = "Akhaltsikhe, Georgia" then some (Geo.mk 1 2) else none

/-- A geocoding service that resolves only the first country-qualified
query for the location "Foo". -/
def gFooArmenia : String → Option Geo :=
  fun q => if q = "Foo, Armenia" then some (Geo.mk 1 2) else none

/-- A record whose location no geocoder variant can resolve. -/
def recUnresolved : FlatRecord := { name := "N", location := "Zzz", imageurl := "u" }

/-- The record of the spec's end-to-end scenario. -/
def recScenario : FlatRecord :=
  { place := "Talin", site := "Kamsarakan Church", name := "Cross Stone 1",
    location := "Talin Kamsarakan (Talin)", imageurl := "http://x/img.jpg" }

/-- A geocoded record whose image URL is empty. -/
def recNoImage : FlatRecord :=
  { name := "A", location := "Talin Kamsarakan (Talin)", imageurl := "" }

/-- A persisted row that conflicts with the manual override for the same key. -/
def rowConflict : CacheRow := CacheRow.mk "Talin Kamsarakan (Talin)" 0 0

/-- An unrelated persisted row. -/
def rowBar : CacheRow := CacheRow.mk "Bar" 3 4

/-! ### Order properties of the Python string comparison -/

theorem charListLe_cons_iff (a b : Char) (as bs : List Char) :
    charListLe (a :: as) (b :: bs) = true ↔ a < b ∨ (a = b ∧ charListLe as bs = true) := by
  simp only [charListLe]
  split_ifs with h1 h2
  · simp [h1]
  · simp [h1, ne_of_gt h2]
  · have hab : a = b := le_antisymm (le_of_not_lt h2) (le_of_not_lt h1)
    subst hab
    simp [lt_irrefl]

theorem charListLe_total : ∀ (a b : List Char), charListLe a b = true ∨ charListLe b a = true
  | [], _ => Or.inl rfl
  | _ :: _, [] => Or.inr rfl
  | a :: as, b :: bs => by
    rcases lt_trichotomy a b with h | h | h
    · exact Or.inl ((charListLe_cons_iff a b as bs).mpr (Or.inl h))
    · subst h
      rcases charListLe_total as bs with h' | h'
      · exact Or.inl ((charListLe_cons_iff a a as bs).mpr (Or.inr ⟨rfl, h'⟩))
      · exact Or.inr ((charListLe_cons_iff a a bs as).mpr (Or.inr ⟨rfl, h'⟩))
    · exact Or.inr ((charListLe_cons_iff b a bs as).mpr (Or.inl h))

theorem charListLe_trans :
    ∀ {a b c : List Char}, charListLe a b = true → charListLe b c = true → charListLe a c = true
  | [], _, _, _, _ => rfl
  | _ :: _, [], _, h, _ => by simp [charListLe] at h
  | _ :: _, _ :: _, [], _, h => by simp [charListLe] at h
  | a :: as, b :: bs, c :: cs, h1, h2 => by
    rw [charListLe_cons_iff] at h1 h2 ⊢
    rcases h1 with h1 | ⟨rfl, h1⟩
    · rcases h2 with h2 | ⟨rfl, h2⟩
      · exact Or.inl (lt_trans h1 h2)
      · exact Or.inl h1
    · rcases h2 with h2 | ⟨rfl, h2⟩
      · exact Or.inl h2
      · exact Or.inr ⟨rfl, charListLe_trans h1 h2⟩

theorem charListLe_antisymm :
    ∀ {a b : List Char}, charListLe a b = true → charListLe b a = true → a = b
  | [], [], _, _ => rfl
  | [], _ :: _, _, h => by simp [charListLe] at h
  | _ :: _, [], h, _ => by simp [charListLe] at h
  | a :: as, b :: bs, h1, h2 => by
    rw [charListLe_cons_iff] at h1 h2
    rcases h1 with h1 | ⟨rfl, h1⟩
    · rcases h2 with h2 | ⟨rfl, _⟩
      · exact absurd h1 (lt_asymm h2)
      · exact absurd h1 (lt_irrefl _)
    · rcases h2 with h2 | ⟨_, h2⟩
      · exact absurd h2 (lt_irrefl _)
      · exact congrArg (List.cons a) (charListLe_antisymm h1 h2)

instance : IsTotal String pyLe := ⟨fun a b => charListLe_total a.data b.data⟩

instance : IsTrans String pyLe := ⟨fun _ _ _ h1 h2 => charListLe_trans h1 h2⟩

instance : IsAntisymm String pyLe :=
  ⟨fun a b h1 h2 => by
    cases a
    cases b
    exact congrArg String.mk (charListLe_antisymm h1 h2)⟩

/-! ### Dictionary lemmas -/

theorem dget_cons (q : String) (v : Geo) (d : List (String × Geo)) (k : String) :
    dget ((q, v) :: d) k = if q = k then some v else dget d k := by
  by_cases h : q = k <;> simp [dget, List.find?_cons, h]

theorem dget_append (d₁ d₂ : List (String × Geo)) (k : String) :
    dget (d₁ ++ d₂) k = (dget d₁ k).or (dget d₂ k) := by
  simp only [dget, List.find?_append]
  cases List.find? (fun p => p.1 == k) d₁ <;> simp

theorem dget_isSome_iff (d : List (String × Geo)) (k : String) :
    (dget d k).isSome = true ↔ k ∈ d.map Prod.fst := by
  induction d with
  | nil => simp [dget]
  | cons p d ih =>
    obtain ⟨q, v⟩ := p
    rw [dget_cons]
    by_cases h : q = k
    · subst h
      simp
    · rw [if_neg h]
      simp [ih, h, Ne.symm h]

theorem dget_eq_none_iff (d : List (String × Geo)) (k : String) :
    dget d k = none ↔ k ∉ d.map Prod.fst := by
  rw [← dget_isSome_iff]
  cases dget d k <;> simp

theorem foldl_prepend {α β : Type} (f : α → β) :
    ∀ (l : List α) (acc : List β), l.foldl (fun d r => f r :: d) acc = (l.map f).reverse ++ acc
  | [], _ => rfl
  | x :: xs, acc => by
    rw [List.foldl_cons, foldl_prepend f xs]
    simp

theorem buildDict_eq (rows : List CacheRow) :
    buildDict rows = (rows.map (fun r => (r.query, Geo.mk r.lat r.lon))).reverse := by
  rw [buildDict, foldl_prepend]
  simp

theorem mem_keys_buildDict (rows : List CacheRow) (k : String) :
    k ∈ (buildDict rows).map Prod.fst ↔ k ∈ rows.map (fun r => r.query) := by
  rw [buildDict_eq]
  simp [List.map_reverse, List.mem_reverse, List.map_map, Function.comp]

theorem seedManual_eq (d : List (String × Geo)) : seedManual d = MANUAL.reverse ++ d := rfl

theorem dget_initCache_eq_none_iff (file : Option (List CacheRow)) (k : String) :
    dget (initCache file) k = none ↔
      k ∉ MANUAL.map Prod.fst ∧ k ∉ (file.getD []).map (fun r => r.query) := by
  rw [initCache, seedManual_eq, dget_eq_none_iff]
  simp only [List.map_append, List.mem_append, List.map_reverse, List.mem_reverse,
    mem_keys_buildDict, not_or]

/-! ### Pending-location lemmas -/

theorem mem_pendingLocs (locs : List String) (d : List (String × Geo)) (l : String) :
    l ∈ pendingLocs locs d ↔ l ∈ locs ∧ dget d l = none := by
  rw [pendingLocs, (List.perm_insertionSort pyLe _).mem_iff]
  simp [List.mem_filter, List.mem_dedup, Option.isNone_iff_eq_none]

theorem nodup_pendingLocs (locs : List String) (d : List (String × Geo)) :
    (pendingLocs locs d).Nodup :=
  ((List.perm_insertionSort pyLe _).nodup_iff).mpr ((List.nodup_dedup locs).filter _)

theorem sorted_pendingLocs (locs : List String) (d : List (String × Geo)) :
    List.Sorted pyLe (pendingLocs locs d) :=
  List.sorted_insertionSort pyLe _

/-! ### Resolution-loop lemmas -/

theorem runLoop_queries (g : String → Option Geo) :
    ∀ pend, (runLoop g pend).queries = pend.flatMap (queriesFor g)
  | [] => rfl
  | loc :: rest => by
    cases h : resolveLoc g loc <;>
      simp [runLoop, h, runLoop_queries g rest, List.flatMap_cons]

theorem runLoop_warnings (g : String → Option Geo) :
    ∀ pend, (runLoop g pend).warnings = pend.filter (fun l => (resolveLoc g l).isNone)
  | [] => rfl
  | loc :: rest => by
    cases h : resolveLoc g loc <;>
      simp [runLoop, h, runLoop_warnings g rest, List.filter_cons]

theorem runLoop_newRows_queries (g : String → Option Geo) :
    ∀ pend, (runLoop g pend).newRows.map (fun r => r.query) =
      pend.filter (fun l => (resolveLoc g l).isSome)
  | [] => rfl
  | loc :: rest => by
    cases h : resolveLoc g loc <;>
      simp [runLoop, h, runLoop_newRows_queries g rest, List.filter_cons]

theorem runLoop_inserted_keys (g : String → Option Geo) :
    ∀ pend, (runLoop g pend).inserted.map Prod.fst =
      pend.filter (fun l => (resolveLoc g l).isSome)
  | [] => rfl
  | loc :: rest => by
    cases h : resolveLoc g loc <;>
      simp [runLoop, h, runLoop_inserted_keys g rest, List.filter_cons]

/-! ### Query-sequence lemmas -/

theorem tryCountries_eq_none_iff (g : String → Option Geo) (clean : String) :
    ∀ cs, tryCountries g clean cs = none ↔ ∀ c ∈ cs, g (countryQuery clean c) = none
  | [] => by simp [tryCountries]
  | c :: cs => by
    cases h : g (countryQuery clean c) <;>
      simp [tryCountries, h, tryCountries_eq_none_iff g clean cs]

theorem countryAttempts_of_all_none (g : String → Option Geo) (clean : String) :
    ∀ cs, (∀ c ∈ cs, g (countryQuery clean c) = none) →
      countryAttempts g clean cs = cs.map (countryQuery clean)
  | [], _ => rfl
  | c :: cs, h => by
    have hc := h c (List.mem_cons_self c cs)
    have hrest := countryAttempts_of_all_none g clean cs
      (fun c' hc' => h c' (List.mem_cons_of_mem _ hc'))
    simp [countryAttempts, hc, hrest]

theorem countryAttempts_first_some (g : String → Option Geo) (clean : String) :
    ∀ cs, tryCountries g clean cs ≠ none →
      ∃ pre c post, cs = pre ++ c :: post ∧
        (∀ c' ∈ pre, g (countryQuery clean c') = none) ∧
        (g (countryQuery clean c)).isSome = true ∧
        countryAttempts g clean cs = pre.map (countryQuery clean) ++ [countryQuery clean c]
  | [], h => absurd rfl h
  | c :: cs, h => by
    cases hc : g (countryQuery clean c) with
    | some p =>
      exact ⟨[], c, cs, rfl, by simp, by simp [hc], by simp [countryAttempts, hc]⟩
    | none =>
      have h' : tryCountries g clean cs ≠ none := by
        simpa [tryCountries, hc] using h
      obtain ⟨pre, c', post, e, hpre, hsome, hatt⟩ := countryAttempts_first_some g clean cs h'
      refine ⟨c :: pre, c', post, by rw [e, List.cons_append], ?_, hsome, ?_⟩
      · intro x hx
        rcases List.mem_cons.mp hx with rfl | hx
        · exact hc
        · exact hpre x hx
      · simp [countryAttempts, hc, hatt]

/-! ### Lemmas about the parenthetical-stripping engine -/

theorem dropWhile_ws_paren (l : List Char) :
    ∀ w, (∀ c ∈ w, c.isWhitespace = true) →
      (w ++ '(' :: l).dropWhile (fun a => a.isWhitespace) = '(' :: l
  | [], _ => rfl
  | c :: cs, h => by
    have hc := h c (List.mem_cons_self c cs)
    rw [List.cons_append, List.dropWhile_cons]
    simp only [hc, if_true]
    exact dropWhile_ws_paren l cs (fun x hx => h x (List.mem_cons_of_mem _ hx))

theorem startsMatch_ws_paren (w inner b : List Char) (hw : ∀ c ∈ w, c.isWhitespace = true) :
    startsMatch (w ++ '(' :: (inner ++ ')' :: b)) = true := by
  simp only [startsMatch]
  rw [dropWhile_ws_paren _ w hw]
  rw [if_pos ⟨rfl, by simp⟩]

theorem startsMatch_no (c : Char) (cs : List Char)
    (h1 : c.isWhitespace = false) (h2 : c ≠ '(') :
    startsMatch (c :: cs) = false := by
  simp only [startsMatch]
  rw [List.dropWhile_cons]
  simp only [h1, if_false, Bool.false_eq_true]
  rw [if_neg]
  rintro ⟨hh, -⟩
  exact h2 (Option.some.inj hh)

theorem subPAux_true_append (b : List Char) :
    ∀ inner, (∀ c ∈ inner, c ≠ ')') → subPAux true (inner ++ ')' :: b) = subPAux false b
  | [], _ => by simp [subPAux]
  | c :: cs, h => by
    have hc : c ≠ ')' := h c (List.mem_cons_self c cs)
    have hrec := subPAux_true_append b cs (fun x hx => h x (List.mem_cons_of_mem _ hx))
    simp [subPAux, hc, hrec]

theorem subPAux_ws_paren (b inner : List Char) (hi : ∀ c ∈ inner, c ≠ ')') :
    ∀ w, (∀ c ∈ w, c.isWhitespace = true) →
      subPAux false (w ++ '(' :: (inner ++ ')' :: b)) = subPAux false b
  | [], _ => by
    have hsm := startsMatch_ws_paren [] inner b (by simp)
    rw [List.nil_append] at hsm ⊢
    simp [subPAux, hsm, subPAux_true_append b inner hi]
  | c :: cs, hwc => by
    have hc := hwc c (List.mem_cons_self c cs)
    have hcp : c ≠ '(' := by
      intro e
      rw [e] at hc
      exact absurd hc (by decide)
    have hsm : startsMatch (c :: (cs ++ '(' :: (inner ++ ')' :: b))) = true := by
      have h0 := startsMatch_ws_paren (c :: cs) inner b hwc
      rwa [List.cons_append] at h0
    have hrec := subPAux_ws_paren b inner hi cs (fun x hx => hwc x (List.mem_cons_of_mem _ hx))
    rw [List.cons_append]
    simp [subPAux, hsm, hcp, hrec]

theorem subPAux_removes_parenthetical (w inner b : List Char)
    (hw : ∀ c ∈ w, c.isWhitespace = true) (hi : ∀ c ∈ inner, c ≠ ')') :
    ∀ a, (∀ c ∈ a, c.isWhitespace = false ∧ c ≠ '(') →
      subPAux false (a ++ (w ++ '(' :: (inner ++ ')' :: b))) = a ++ subPAux false b
  | [], _ => by
    rw [List.nil_append, List.nil_append]
    exact subPAux_ws_paren b inner hi w hw
  | c :: a', ha => by
    obtain ⟨h1, h2⟩ := ha c (List.mem_cons_self c a')
    have hrec := subPAux_removes_parenthetical w inner b hw hi a'
      (fun x hx => ha x (List.mem_cons_of_mem _ hx))
    have hsm := startsMatch_no c (a' ++ (w ++ '(' :: (inner ++ ')' :: b))) h1 h2
    rw [List.cons_append]
    simp [subPAux, hsm, hrec]

/-! ### Projections of `run` -/

theorem run_cache (g : String → Option Geo) (locs : List String) (file : Option (List CacheRow)) :
    (run g locs file).cache =
      (runLoop g (pendingLocs locs (initCache file))).inserted ++ initCache file := rfl

theorem run_newRows (g : String → Option Geo) (locs : List String) (file : Option (List CacheRow)) :
    (run g locs file).newRows = (runLoop g (pendingLocs locs (initCache file))).newRows := rfl

theorem run_warnings (g : String → Option Geo) (locs : List String) (file : Option (List CacheRow)) :
    (run g locs file).warnings = (runLoop g (pendingLocs locs (initCache file))).warnings := rfl

theorem run_queries (g : String → Option Geo) (locs : List String) (file : Option (List CacheRow)) :
    (run g locs file).queries = (runLoop g (pendingLocs locs (initCache file))).queries := rfl

theorem run_file (g : String → Option Geo) (locs : List String) (file : Option (List CacheRow)) :
    (run g locs file).file =
      if (runLoop g (pendingLocs locs (initCache file))).newRows.isEmpty then file
      else some (file.getD [] ++ (runLoop g (pendingLocs locs (initCache file))).newRows) := rfl

theorem run_wrote (g : String → Option Geo) (locs : List String) (file : Option (List CacheRow)) :
    (run g locs file).wrote =
      !(runLoop g (pendingLocs locs (initCache file))).newRows.isEmpty := rfl

/-! ### Claim theorems -/

/-- C1: for a location that reaches the resolver, the country-qualified
queries are issued in the exact order of `COUNTRIES`, stopping at the
first non-empty result; only when all five fail is one final bare query
with the cleaned string issued.  In particular a location resolvable only
under "Georgia" is preceded by failed "Armenia" and "Turkey" attempts. -/
theorem fallback_query_order (g : String → Option Geo) (loc : String) :
    ((∀ c ∈ COUNTRIES, g (countryQuery (strip_parens loc) c) = none) →
      queriesFor g loc =
        COUNTRIES.map (countryQuery (strip_parens loc)) ++ [strip_parens loc]) ∧
    ((∃ c ∈ COUNTRIES, (g (countryQuery (strip_parens loc) c)).isSome = true) →
      ∃ pre c post, COUNTRIES = pre ++ c :: post ∧
        (∀ c' ∈ pre, g (countryQuery (strip_parens loc) c') = none) ∧
        (g (countryQuery (strip_parens loc) c)).isSome = true ∧
        queriesFor g loc =
          pre.map (countryQuery (strip_parens loc)) ++ [countryQuery (strip_parens loc) c]) := by
  constructor
  · intro h
    have ht : tryCountries g (strip_parens loc) COUNTRIES = none :=
      (tryCountries_eq_none_iff g _ _).mpr h
    rw [queriesFor, if_neg (by simp [ht]), countryAttempts_of_all_none g _ _ h]
  · intro h
    have ht : tryCountries g (strip_parens loc) COUNTRIES ≠ none := by
      intro he
      obtain ⟨c, hc, hs⟩ := h
      rw [tryCountries_eq_none_iff] at he
      rw [he c hc] at hs
      exact Bool.noConfusion hs
    obtain ⟨pre, c, post, e, hpre, hsome, hatt⟩ := countryAttempts_first_some g _ _ ht
    refine ⟨pre, c, post, e, hpre, hsome, ?_⟩
    have hts : (tryCountries g (strip_parens loc) COUNTRIES).isSome = true := by
      cases hh : tryCountries g (strip_parens loc) COUNTRIES
      · exact absurd hh ht
      · rfl
    rw [queriesFor, if_pos hts, hatt]

/-- Witness for C1: with a geocoder succeeding only on "Akhaltsikhe,
Georgia", the issued queries are exactly the Armenia, Turkey and Georgia
attempts, in that order. -/
theorem fallback_query_order_witness :
    (∃ pre c post, COUNTRIES = pre ++ c :: post ∧
      (∀ c' ∈ pre, gGeorgiaOnly (countryQuery (strip_parens "Akhaltsikhe") c') = none) ∧
      (gGeorgiaOnly (countryQuery (strip_parens "Akhaltsikhe") c)).isSome = true ∧
      queriesFor gGeorgiaOnly "Akhaltsikhe" =
        pre.map (countryQuery (strip_parens "Akhaltsikhe")) ++
          [countryQuery (strip_parens "Akhaltsikhe") c]) ∧
    queriesFor gGeorgiaOnly "Akhaltsikhe" =
      ["Akhaltsikhe, Armenia", "Akhaltsikhe, Turkey", "Akhaltsikhe, Georgia"] :=
  ⟨(fallback_query_order gGeorgiaOnly "Akhaltsikhe").2 (by decide), by decide⟩

/-- C10: the live queries of a run are the per-location query sequences of
the pending locations concatenated in order; the pending list has no
duplicates, is sorted by Python's string order, contains exactly the
uncached input locations (each exactly once), and depends only on the set
of input locations, so the query sequence is a deterministic function of
the input set and the cache state. -/
theorem deterministic_query_plan (g : String → Option Geo) (locs : List String)
    (file : Option (List CacheRow)) :
    (run g locs file).queries =
      (pendingLocs locs (initCache file)).flatMap (queriesFor g) ∧
    (pendingLocs locs (initCache file)).Nodup ∧
    List.Sorted pyLe (pendingLocs locs (initCache file)) ∧
    (∀ l, l ∈ pendingLocs locs (initCache file) ↔
      l ∈ locs ∧ dget (initCache file) l = none) ∧
    (∀ l ∈ locs, dget (initCache file) l = none →
      (pendingLocs locs (initCache file)).count l = 1) ∧
    (∀ locs', (∀ l, l ∈ locs' ↔ l ∈ locs) →
      pendingLocs locs' (initCache file) = pendingLocs locs (initCache file)) := by
  refine ⟨?_, nodup_pendingLocs locs _, sorted_pendingLocs locs _,
    fun l => mem_pendingLocs locs _ l, ?_, ?_⟩
  · rw [run_queries, runLoop_queries]
  · intro l hl hc
    exact List.count_eq_one_of_mem (nodup_pendingLocs locs _)
      ((mem_pendingLocs locs _ l).mpr ⟨hl, hc⟩)
  · intro locs' hset
    refine List.eq_of_perm_of_sorted ?_ (sorted_pendingLocs locs' _) (sorted_pendingLocs locs _)
    refine (List.perm_ext_iff_of_nodup (nodup_pendingLocs locs' _)
      (nodup_pendingLocs locs _)).mpr ?_
    intro a
    rw [mem_pendingLocs, mem_pendingLocs, hset a]

/-- Witness for C10 at a concrete geocoder, input list and empty cache. -/
theorem deterministic_query_plan_witness :
    (run gNone ["b", "a"] none).queries =
      (pendingLocs ["b", "a"] (initCache none)).flatMap (queriesFor gNone) ∧
    (pendingLocs ["b", "a"] (initCache none)).count "a" = 1 ∧
    pendingLocs ["a", "b"] (initCache none) = pendingLocs ["b", "a"] (initCache none) :=
  ⟨(deterministic_query_plan gNone ["b", "a"] none).1,
   (deterministic_query_plan gNone ["b", "a"] none).2.2.2.2.1 "a" (by decide) (by decide),
   (deterministic_query_plan gNone ["b", "a"] none).2.2.2.2.2 ["a", "b"] (fun l => by simp [or_comm])⟩

/-- C2 counterexample: the claim fails for an input set containing a
location no query variant can resolve.  With the always-failing geocoder,
the location "Zzz" is not cached by the first run (failures are never
inserted), so the second run with the first run's cache file issues live
queries again. -/
theorem second_run_requeries_counterexample :
    (run gNone ["Zzz"] ((run gNone ["Zzz"] none).file)).queries ≠ [] := by decide

/-- C2 amended: if every pending location was resolved in the first run
(no warnings), then a second run with the unchanged input set and the
cache file produced by the first run issues zero live geocoding calls. -/
theorem second_run_no_queries_of_all_resolved (g : String → Option Geo)
    (locs : List String) (file : Option (List CacheRow))
    (h : (run g locs file).warnings = []) :
    (run g locs ((run g locs file).file)).queries = [] := by
  have hw : (pendingLocs locs (initCache file)).filter
      (fun l => (resolveLoc g l).isNone) = [] := by
    rw [run_warnings, runLoop_warnings] at h
    exact h
  have hres : ∀ l ∈ pendingLocs locs (initCache file), (resolveLoc g l).isSome = true := by
    intro l hl
    cases hr : resolveLoc g l with
    | some p => rfl
    | none =>
      exfalso
      have : l ∈ (pendingLocs locs (initCache file)).filter
          (fun l => (resolveLoc g l).isNone) := by
        rw [List.mem_filter]
        exact ⟨hl, by rw [hr]; rfl⟩
      rw [hw] at this
      exact List.not_mem_nil l this
  have hcov : ∀ l ∈ locs, ¬ dget (initCache ((run g locs file).file)) l = none := by
    intro l hl hnone
    rw [dget_initCache_eq_none_iff] at hnone
    obtain ⟨hman, hrows⟩ := hnone
    cases hdl : dget (initCache file) l with
    | none =>
      have hpend : l ∈ pendingLocs locs (initCache file) :=
        (mem_pendingLocs locs _ l).mpr ⟨hl, hdl⟩
      have hnr : l ∈ (runLoop g (pendingLocs locs (initCache file))).newRows.map
          (fun r => r.query) := by
        rw [runLoop_newRows_queries, List.mem_filter]
        exact ⟨hpend, hres l hpend⟩
      have hne : ¬ (runLoop g (pendingLocs locs (initCache file))).newRows.isEmpty = true := by
        intro he
        rw [List.isEmpty_iff] at he
        rw [he] at hnr
        exact List.not_mem_nil l hnr
      rw [run_file, if_neg hne] at hrows
      apply hrows
      rw [Option.getD_some, List.map_append, List.mem_append]
      exact Or.inr hnr
    | some p =>
      have : ¬ dget (initCache file) l = none := by
        rw [hdl]
        exact Option.noConfusion
      rw [dget_initCache_eq_none_iff, not_and_or, not_not, not_not] at this
      rcases this with hm | hr
      · exact hman hm
      · apply hrows
        rw [run_file]
        split
        · exact hr
        · rw [Option.getD_some, List.map_append, List.mem_append]
          exact Or.inl hr
  have hpend2 : pendingLocs locs (initCache ((run g locs file).file)) = [] := by
    rw [List.eq_nil_iff_forall_not_mem]
    intro l hl
    rw [mem_pendingLocs] at hl
    exact hcov l hl.1 hl.2
  rw [run_queries, hpend2]
  rfl

/-- Witness for the amended C2: one location resolved at the first
country attempt; the second run issues no queries. -/
theorem second_run_no_queries_witness :
    (run gFooArmenia ["Foo"] none).warnings = [] ∧
    (run gFooArmenia ["Foo"] ((run gFooArmenia ["Foo"] none).file)).queries = [] :=
  ⟨by decide, second_run_no_queries_of_all_resolved gFooArmenia ["Foo"] none (by decide)⟩

/-- C3: a manual-override key is looked up to the manual coordinates on
load, shadowing any conflicting persisted row for the same key; it is
never among the pending locations submitted to the resolver, and so is
never written as a new row, in any run and for any cache file. -/
theorem manual_override_precedence (g : String → Option Geo) (locs : List String)
    (file : Option (List CacheRow)) (k : String) (v : Geo) (hkv : (k, v) ∈ MANUAL) :
    dget (initCache file) k = some v ∧
    k ∉ pendingLocs locs (initCache file) ∧
    k ∉ (run g locs file).newRows.map (fun r => r.query) := by
  have hman : dget MANUAL.reverse k = some v := by
    rcases List.mem_cons.mp hkv with he | hkv'
    · injection he with h1 h2
      subst h1
      subst h2
      rfl
    · rcases List.mem_cons.mp hkv' with he | h0
      · injection he with h1 h2
        subst h1
        subst h2
        rfl
      · exact absurd h0 (List.not_mem_nil _)
  have h1 : dget (initCache file) k = some v := by
    rw [initCache, seedManual_eq, dget_append, hman]
    rfl
  refine ⟨h1, ?_, ?_⟩
  · intro hmem
    rw [mem_pendingLocs, h1] at hmem
    exact Option.noConfusion hmem.2
  · intro hmem
    rw [run_newRows, runLoop_newRows_queries, List.mem_filter,
      mem_pendingLocs, h1] at hmem
    exact Option.noConfusion hmem.1.2

/-- Witness for C3: the persisted file holds a conflicting row for the
manual key, and the manual coordinates still win; the key is not pending. -/
theorem manual_override_precedence_witness :
    dget (initCache (some [rowConflict])) "Talin Kamsarakan (Talin)" =
      some (Geo.mk 40.3874 43.8733) ∧
    "Talin Kamsarakan (Talin)" ∉
      pendingLocs ["Talin Kamsarakan (Talin)"] (initCache (some [rowConflict])) := by
  have h := manual_override_precedence gNone ["Talin Kamsarakan (Talin)"]
    (some [rowConflict]) "Talin Kamsarakan (Talin)" (Geo.mk 40.3874 43.8733)
    (List.mem_cons_of_mem _ (List.mem_cons_self _ _))
  exact ⟨h.1, h.2.1⟩

/-- C4: persisting appends exactly the rows newly resolved in this run
(fresh keys only: never a manual key, never a key already in the file),
preserves every previously persisted row, writes nothing when no new row
was resolved, and introduces no duplicate query string. -/
theorem cache_persist_properties (g : String → Option Geo) (locs : List String)
    (file : Option (List CacheRow)) :
    ((run g locs file).newRows ≠ [] →
      (run g locs file).file = some (file.getD [] ++ (run g locs file).newRows) ∧
      (run g locs file).wrote = true) ∧
    ((run g locs file).newRows = [] →
      (run g locs file).file = file ∧ (run g locs file).wrote = false) ∧
    (run g locs file).newRows.map (fun r => r.query) =
      (pendingLocs locs (initCache file)).filter (fun l => (resolveLoc g l).isSome) ∧
    (∀ q ∈ (run g locs file).newRows.map (fun r => r.query),
      q ∉ (file.getD []).map (fun r => r.query) ∧ q ∉ MANUAL.map Prod.fst) ∧
    ((run g locs file).newRows.map (fun r => r.query)).Nodup ∧
    (((file.getD []).map (fun r => r.query)).Nodup →
      ((file.getD [] ++ (run g locs file).newRows).map (fun r => r.query)).Nodup) := by
  have hq : (run g locs file).newRows.map (fun r => r.query) =
      (pendingLocs locs (initCache file)).filter (fun l => (resolveLoc g l).isSome) := by
    rw [run_newRows, runLoop_newRows_queries]
  have hfresh : ∀ q ∈ (run g locs file).newRows.map (fun r => r.query),
      q ∉ (file.getD []).map (fun r => r.query) ∧ q ∉ MANUAL.map Prod.fst := by
    intro q hqm
    rw [hq, List.mem_filter, mem_pendingLocs] at hqm
    have hn := hqm.1.2
    rw [dget_initCache_eq_none_iff] at hn
    exact ⟨hn.2, hn.1⟩
  have hnodup : ((run g locs file).newRows.map (fun r => r.query)).Nodup := by
    rw [hq]
    exact (nodup_pendingLocs locs _).filter _
  refine ⟨?_, ?_, hq, hfresh, hnodup, ?_⟩
  · intro hne
    have he : ¬ (runLoop g (pendingLocs locs (initCache file))).newRows.isEmpty = true := by
      rw [List.isEmpty_iff, ← run_newRows]
      exact hne
    refine ⟨by rw [run_file, if_neg he, run_newRows], ?_⟩
    rw [run_wrote]
    cases hb : (runLoop g (pendingLocs locs (initCache file))).newRows.isEmpty
    · rfl
    · exact absurd hb he
  · intro hnil
    have he : (runLoop g (pendingLocs locs (initCache file))).newRows.isEmpty = true := by
      rw [List.isEmpty_iff, ← run_newRows]
      exact hnil
    exact ⟨by rw [run_file, if_pos he], by rw [run_wrote, he]; rfl⟩
  · intro hrows
    rw [List.map_append, List.nodup_append]
    exact ⟨hrows, hnodup, fun a ha hb => (hfresh a hb).1 ha⟩

/-- Witness for C4: one fresh location is resolved and appended after the
pre-existing row; the write flag is set. -/
theorem cache_persist_properties_witness :
    (run gFooArmenia ["Foo"] (some [rowBar])).newRows ≠ [] ∧
    (run gFooArmenia ["Foo"] (some [rowBar])).file =
      some ([rowBar] ++ (run gFooArmenia ["Foo"] (some [rowBar])).newRows) ∧
    (run gFooArmenia ["Foo"] (some [rowBar])).wrote = true ∧
    (([rowBar] ++ (run gFooArmenia ["Foo"] (some [rowBar])).newRows).map
      (fun r => r.query)).Nodup := by
  have h := cache_persist_properties gFooArmenia ["Foo"] (some [rowBar])
  have hne : (run gFooArmenia ["Foo"] (some [rowBar])).newRows ≠ [] := by decide
  exact ⟨hne, (h.1 hne).1, (h.1 hne).2, h.2.2.2.2.2 (by decide)⟩

/-- C5: a location for which every query variant fails yields exactly one
diagnostic notice naming the raw string, is absent from the final cache,
and every record referencing it is dropped from the geocoded output; the
run itself still produces a result. -/
theorem unresolved_location_excluded (g : String → Option Geo) (recs : List FlatRecord)
    (file : Option (List CacheRow)) (loc : String)
    (hmem : loc ∈ recs.map (fun r => r.location))
    (hcache : dget (initCache file) loc = none)
    (hres : resolveLoc g loc = none) :
    (pipeline g recs file).warnings.count loc = 1 ∧
    dget (pipeline g recs file).cache loc = none ∧
    ∀ rp ∈ geocoded (pipeline g recs file).cache recs, rp.1.location ≠ loc := by
  have hpend : loc ∈ pendingLocs (recs.map (fun r => r.location)) (initCache file) :=
    (mem_pendingLocs _ _ loc).mpr ⟨hmem, hcache⟩
  have hcount : (pipeline g recs file).warnings.count loc = 1 := by
    rw [pipeline, run_warnings, runLoop_warnings]
    refine List.count_eq_one_of_mem ((nodup_pendingLocs _ _).filter _) ?_
    rw [List.mem_filter]
    exact ⟨hpend, by rw [hres]; rfl⟩
  have hnone : dget (pipeline g recs file).cache loc = none := by
    rw [pipeline, run_cache, dget_append]
    have hins : dget (runLoop g (pendingLocs (recs.map (fun r => r.location))
        (initCache file))).inserted loc = none := by
      rw [dget_eq_none_iff, runLoop_inserted_keys, List.mem_filter]
      rintro ⟨-, habs⟩
      rw [hres] at habs
      exact Bool.noConfusion habs
    rw [hins, Option.none_or, hcache]
  refine ⟨hcount, hnone, ?_⟩
  intro rp hrp hl
  rw [geocoded, List.mem_filterMap] at hrp
  obtain ⟨r, hr, hmap⟩ := hrp
  rw [Option.map_eq_some'] at hmap
  obtain ⟨p, hp, he⟩ := hmap
  have hre : rp.1 = r := by rw [← he]
  rw [hre] at hl
  rw [hl, hnone] at hp
  exact Option.noConfusion hp

/-- Witness for C5 at the always-failing geocoder and a single record. -/
theorem unresolved_location_excluded_witness :
    (pipeline gNone [recUnresolved] none).warnings.count "Zzz" = 1 ∧
    dget (pipeline gNone [recUnresolved] none).cache "Zzz" = none ∧
    ∀ rp ∈ geocoded (pipeline gNone [recUnresolved] none).cache [recUnresolved],
      rp.1.location ≠ "Zzz" :=
  unresolved_location_excluded gNone [recUnresolved] none "Zzz"
    (by decide) (by decide) (by decide)

/-- C6: the cleaning function removes a parenthetical segment together
with the whitespace run preceding it, wherever it occurs, and the spec's
concrete examples hold, including one exercising the final whitespace
strip. -/
theorem strip_parens_spec :
    (∀ a w inner b : List Char,
      (∀ c ∈ a, c.isWhitespace = false ∧ c ≠ '(') →
      (∀ c ∈ w, c.isWhitespace = true) →
      (∀ c ∈ inner, c ≠ ')') →
      subPAux false (a ++ (w ++ '(' :: (inner ++ ')' :: b))) = a ++ subPAux false b) ∧
    strip_parens "Talin (Talin)" = "Talin" ∧
    strip_parens "Haghartzin (Dilijan)" = "Haghartzin" ∧
    strip_parens " X (y) " = "X" :=
  ⟨fun a w inner b ha hw hi => subPAux_removes_parenthetical w inner b hw hi a ha,
   by decide, by decide, by decide⟩

/-- Witness for C6's universally quantified clause at concrete character
lists. -/
theorem strip_parens_spec_witness :
    subPAux false ("Haghartzin".data ++ (" ".data ++ '(' :: ("Dilijan".data ++ ')' :: []))) =
      "Haghartzin".data ++ subPAux false [] :=
  strip_parens_spec.1 "Haghartzin".data " ".data "Dilijan".data []
    (by decide) (by decide) (by decide)

/-- Helper for C7: the rendered markers are exactly the geocoded rows
with a non-empty image URL, mapped to their marker. -/
theorem markers_eq_filter_map (d : List (String × Geo)) (recs : List FlatRecord) :
    markers d recs =
      ((geocoded d recs).filter (fun rp => !(rp.1.imageurl == ""))).map
        (fun rp => Marker.mk rp.2.lat rp.2.lon (tooltipOf rp.1)) := by
  rw [markers]
  generalize geocoded d recs = l
  induction l with
  | nil => rfl
  | cons rp l ih =>
    by_cases h : rp.1.imageurl = ""
    · simp [List.filterMap_cons, List.filter_cons, h, ih]
    · simp [List.filterMap_cons, List.filter_cons, h, ih]

/-- C7 counterexample: a record whose location is geocoded (GeoPoint
present) but whose image URL is empty produces no marker at all, so the
renderer does not emit one marker per geocoded record. -/
theorem marker_per_geocoded_record_counterexample :
    geocoded (pipeline gNone [recNoImage] none).cache [recNoImage] ≠ [] ∧
    markers (pipeline gNone [recNoImage] none).cache [recNoImage] = [] := by
  constructor
  · decide
  · decide

/-- C7 amended: for every geocoded record with a non-empty image URL the
renderer produces exactly one marker at the record's coordinates with the
tooltip (name, or "Khachkar" when empty, en dash, location); records with
an empty image URL are skipped.  The end-to-end scenario holds for every
geocoder: zero live calls and one marker with the expected tooltip. -/
theorem marker_per_geocoded_record_amended (d : List (String × Geo)) (recs : List FlatRecord) :
    markers d recs =
      ((geocoded d recs).filter (fun rp => !(rp.1.imageurl == ""))).map
        (fun rp => Marker.mk rp.2.lat rp.2.lon (tooltipOf rp.1)) ∧
    (∀ g : String → Option Geo,
      (pipeline g [recScenario] none).queries = [] ∧
      markers (pipeline g [recScenario] none).cache [recScenario] =
        [Marker.mk 40.3874 43.8733 "Cross Stone 1 – Talin Kamsarakan (Talin)"]) := by
  refine ⟨markers_eq_filter_map d recs, ?_⟩
  intro g
  have hpend : pendingLocs (List.map (fun r => r.location) [recScenario])
      (initCache none) = [] := by decide
  constructor
  · rw [pipeline, run_queries, hpend]
    rfl
  · rw [pipeline, run_cache, hpend]
    rfl

/-- C8: an absent cache file is not an error: the run starts from a cache
holding exactly the manual overrides and behaves identically to a run
over an empty persisted cache. -/
theorem absent_cache_file_ok (g : String → Option Geo) (locs : List String) :
    initCache none = MANUAL.reverse ∧
    (run g locs none).cache = (run g locs (some [])).cache ∧
    (run g locs none).newRows = (run g locs (some [])).newRows ∧
    (run g locs none).warnings = (run g locs (some [])).warnings ∧
    (run g locs none).queries = (run g locs (some [])).queries ∧
    (run g locs none).wrote = (run g locs (some [])).wrote :=
  ⟨rfl, rfl, rfl, rfl, rfl, rfl⟩

/-- C9: a location for which every variant fails is inserted neither into
the in-memory cache nor into the persisted file, remains pending on the
next run over the produced file, and costs the full six-query fallback
sequence, which the next run issues again. -/
theorem unresolved_not_cached_requeried (g : String → Option Geo) (locs : List String)
    (file : Option (List CacheRow)) (loc : String)
    (hmem : loc ∈ locs)
    (hcache : dget (initCache file) loc = none)
    (hres : resolveLoc g loc = none) :
    dget (run g locs file).cache loc = none ∧
    loc ∉ ((run g locs file).file.getD []).map (fun r => r.query) ∧
    loc ∈ pendingLocs locs (initCache (run g locs file).file) ∧
    (queriesFor g loc).length = 6 ∧
    (∀ q ∈ queriesFor g loc, q ∈ (run g locs ((run g locs file).file)).queries) := by
  have hcache0 := hcache
  rw [dget_initCache_eq_none_iff] at hcache0
  have hnotnr : loc ∉ (runLoop g (pendingLocs locs (initCache file))).newRows.map
      (fun r => r.query) := by
    rw [runLoop_newRows_queries, List.mem_filter]
    rintro ⟨-, habs⟩
    rw [hres] at habs
    exact Bool.noConfusion habs
  have hfile : loc ∉ ((run g locs file).file.getD []).map (fun r => r.query) := by
    rw [run_file]
    split
    · exact hcache0.2
    · rw [Option.getD_some, List.map_append, List.mem_append]
      rintro (h | h)
      · exact hcache0.2 h
      · exact hnotnr h
  have hcache2 : dget (initCache (run g locs file).file) loc = none := by
    rw [dget_initCache_eq_none_iff]
    exact ⟨hcache0.1, hfile⟩
  have hpend2 : loc ∈ pendingLocs locs (initCache (run g locs file).file) :=
    (mem_pendingLocs _ _ _).mpr ⟨hmem, hcache2⟩
  have hcacheout : dget (run g locs file).cache loc = none := by
    rw [run_cache, dget_append]
    have hins : dget (runLoop g (pendingLocs locs (initCache file))).inserted loc = none := by
      rw [dget_eq_none_iff, runLoop_inserted_keys, List.mem_filter]
      rintro ⟨-, habs⟩
      rw [hres] at habs
      exact Bool.noConfusion habs
    rw [hins, Option.none_or, hcache]
  have htc : tryCountries g (strip_parens loc) COUNTRIES = none := by
    cases hh : tryCountries g (strip_parens loc) COUNTRIES with
    | none => rfl
    | some p =>
      rw [resolveLoc, hh] at hres
      exact Option.noConfusion hres
  have hall : ∀ c ∈ COUNTRIES, g (countryQuery (strip_parens loc) c) = none :=
    (tryCountries_eq_none_iff g _ _).mp htc
  have hlen : (queriesFor g loc).length = 6 := by
    rw [queriesFor, if_neg (by simp [htc]), countryAttempts_of_all_none g _ _ hall]
    rfl
  refine ⟨hcacheout, hfile, hpend2, hlen, ?_⟩
  intro q hq
  rw [run_queries, runLoop_queries, List.mem_flatMap]
  exact ⟨loc, hpend2, hq⟩

/-- Witness for C9: the unresolvable "Zzz" stays pending after a run and
its fallback sequence has six queries. -/
theorem unresolved_not_cached_requeried_witness :
    "Zzz" ∈ pendingLocs ["Zzz"] (initCache (run gNone ["Zzz"] none).file) ∧
    (queriesFor gNone "Zzz").length = 6 := by
  have h := unresolved_not_cached_requeried gNone ["Zzz"] none "Zzz"
    (by decide) (by decide) (by decide)
  exact ⟨h.2.2.1, h.2.2.2.1⟩

end Khachkars
